import Mathlib

/-
Verification of the metadata extractor `extract_metadata` of `app.py`
(an LLM research-paper analyzer).  The Python function takes the raw
text of a PDF (one string with embedded newlines) and returns a 4-tuple
(title, authors, abstract, full_text).

Shallow embedding conventions:
* Python strings are modelled as `List Char` (`Str`); an input literal
  `"..."` is embedded via `String.data`.
* Character classes model the ASCII behaviour of Python's `str.isupper`,
  `\s`, `\d`, `[A-Z]`, `[a-z]` (all inputs considered here are ASCII).
* Operations that can raise in Python (`line[0]`, `list.index`,
  subscripting) are modelled as `Option`-valued; `extract_metadata`
  therefore returns `Option (Str × Str × Str × Str)`, and `none` means
  "raises".  The regular expressions of the source are modelled by
  deterministic parsers that follow the backtracking behaviour of
  Python's `re` on these patterns (all quantifier boundaries in the
  patterns are between disjoint character classes, except the `\s*`
  right after `abstract`, whose greedy/backtracking behaviour is
  modelled explicitly in `abstractTry`).
-/

namespace ArxivExtract

abbrev Str := List Char

/-- Python whitespace (`str.strip`, regex `\s`), ASCII fragment. -/
def isPySpace (c : Char) : Bool :=
  c = ' ' || c = '\t' || c = '\n' || c = '\r' || c = '\x0b' || c = '\x0c'

/-- Regex `[A-Z]`, and Python `str.isupper` on ASCII characters. -/
def isUpperA (c : Char) : Bool := 'A' ≤ c && c ≤ 'Z'

/-- Regex `[a-z]` on ASCII characters. -/
def isLowerA (c : Char) : Bool := 'a' ≤ c && c ≤ 'z'

/-- Regex `\d` on ASCII characters. -/
def isDigitA (c : Char) : Bool := '0' ≤ c && c ≤ '9'

/-- ASCII lowercasing, used to model case-insensitive (`(?i)`) matching. -/
def toLowerA (c : Char) : Char :=
  if isUpperA c then Char.ofNat (c.toNat + 32) else c

def lowerStr (l : Str) : Str := l.map toLowerA

/-- Python `str.strip()`: drop whitespace from both ends. -/
def pyStrip (l : Str) : Str :=
  ((l.dropWhile isPySpace).reverse.dropWhile isPySpace).reverse

/-- Python `text.split('\n')`: split on newlines keeping empty pieces;
`"".split('\n') == ['']`. -/
def splitNl : Str → List Str
  | [] => [[]]
  | c :: rest =>
    if c = '\n' then [] :: splitNl rest
    else
      match splitNl rest with
      | [] => [[c]]
      | h :: t => (c :: h) :: t

/-- Scanner for `str.replace`, structurally recursive on a step budget;
each step consumes at least one input character, so with a budget of at
least `s.length` the budget never runs out (`pyReplaceGo_fuel`). -/
def pyReplaceGo (pat rep : Str) : Nat → Str → Str
  | 0, s => s
  | _ + 1, [] => []
  | fuel + 1, c :: rest =>
    if pat ≠ [] ∧ pat.isPrefixOf (c :: rest) then
      rep ++ pyReplaceGo pat rep fuel (List.drop (pat.length - 1) rest)
    else
      c :: pyReplaceGo pat rep fuel rest

/-- Python `s.replace(pat, rep)` for a non-empty literal `pat`:
left-to-right, non-overlapping; scanning resumes after the replaced
occurrence.  (For `pat = []` this is the identity; the source only
replaces the non-empty literals `'\n'` and two spaces.) -/
def pyReplace (pat rep s : Str) : Str := pyReplaceGo pat rep s.length s

/-- Python `' '.join(pieces)`. -/
def joinSp (ls : List Str) : Str := List.intercalate [' '] ls

/-- Python `list.index(x)`: index of the first exact occurrence, `none`
models the `ValueError` raised when absent. -/
def listIndex (x : Str) : List Str → Option Nat
  | [] => none
  | l :: ls => if l = x then some 0 else (listIndex x ls).map (fun n => n + 1)

/-- Leftmost index at which `pat` occurs as a contiguous substring. -/
def firstOcc (pat : Str) (l : Str) : Option Nat :=
  if pat.isPrefixOf l then some 0
  else
    match l with
    | [] => none
    | _ :: rest => (firstOcc pat rest).map (fun n => n + 1)

/-- Literal (case-sensitive) substring test, via `firstOcc`. -/
def containsSub (pat l : Str) : Bool := (firstOcc pat l).isSome

def unknownTitle : Str := ("Unknown Title").data
def unknownAuthors : Str := ("Unknown Authors").data
def absNotFound : Str := ("Abstract not found").data
def absWord : Str := ("abstract").data

/-! ### Title (app.py line 30)

`title = next((line.strip() for line in lines
               if line.strip() and (line[0].isupper() or len(line.strip()) > 10)),
              "Unknown Title")`

Note `line[0]` reads the first character of the *raw* (untrimmed) line;
it is only reached when `line.strip()` is truthy, so the potential
`IndexError` (modelled by `none`) is never hit. -/

/-- Truth value of `line.strip() and (line[0].isupper() or len(line.strip()) > 10)`;
`none` models the `IndexError` of `line[0]` on an empty line. -/
def titleLineVal (l : Str) : Option Bool :=
  if pyStrip l = [] then some false
  else
    match l with
    | [] => none
    | c :: _ => some (isUpperA c || decide (10 < (pyStrip l).length))

/-- The scan `next(...)`: first line whose condition is truthy, yielding
its stripped text; `some none` = generator exhausted (default used). -/
def findTitle : List Str → Option (Option Str)
  | [] => some none
  | l :: ls =>
    match titleLineVal l with
    | none => none
    | some true => some (some (pyStrip l))
    | some false => findTitle ls

/-! ### Authors (app.py lines 33–45) -/

/-- Model of `re.search(r'(?i)abstract|date|correspondence|affiliation', line)`:
case-insensitive containment of one of the four literal words. -/
def hasKeyword (l : Str) : Bool :=
  containsSub absWord (lowerStr l) ||
  containsSub (("date").data) (lowerStr l) ||
  containsSub (("correspondence").data) (lowerStr l) ||
  containsSub (("affiliation").data) (lowerStr l)

/-- app.py line 34:
`start_idx = lines.index(title.strip()) + 1 if title in lines else 0`.
The membership guard uses `title` itself; the lookup uses
`title.strip()`.  `none` models the `ValueError` of `list.index`. -/
def startIdxOf (lines : List Str) (title : Str) : Option Nat :=
  if title ∈ lines then (listIndex (pyStrip title) lines).map (fun n => n + 1)
  else some 0

/-- app.py lines 35–40: `end_idx = len(lines)` then
`for i in range(start_idx, min(start_idx + 15, len(lines)))`, breaking at
the first line whose stripped text matches the keyword pattern.  `none`
models an out-of-range subscript `lines[i]` (never reached: `i < stop ≤
len(lines)`). -/
def endScanGo (lines : List Str) : Nat → Nat → Option Nat
  | 0, _ => some lines.length
  | n + 1, i =>
    match lines[i]? with
    | none => none
    | some l => if hasKeyword (pyStrip l) then some i else endScanGo lines n (i + 1)

def endScan (lines : List Str) (stop i : Nat) : Option Nat :=
  endScanGo lines (stop - i) i

/-! The author regex (app.py line 43):
`([A-Z][a-z]+(?:\s+[A-Z][a-z]+)*(?:\s*\d+(?:,\s*\d+)*)?(?:,\s*[A-Z][a-z]+(?:\s+[A-Z][a-z]+)*(?:\s*\d+(?:,\s*\d+)*)?)*)`
i.e. `NameGroup (?:,\s*NameGroup)*` with
`NameGroup = [A-Z][a-z]+(?:\s+[A-Z][a-z]+)*(?:\s*\d+(?:,\s*\d+)*)?`.
Every quantifier boundary in it separates disjoint character classes and
nothing follows the pattern, so Python's backtracking engine performs a
deterministic greedy parse; a failed iteration of a starred group
consumes nothing.  The starred groups are given fuel `length + 1`: each
iteration consumes at least one character, so the fuel never runs out. -/

/-- Pattern `[A-Z][a-z]+`: one uppercase letter then a maximal non-empty
lowercase run; returns (matched, rest). -/
def parseName (l : Str) : Option (Str × Str) :=
  match l with
  | [] => none
  | c :: rest =>
    if isUpperA c then
      let ls := rest.takeWhile isLowerA
      if ls = [] then none else some (c :: ls, rest.dropWhile isLowerA)
    else none

/-- Pattern `(?:\s+[A-Z][a-z]+)*`, greedy. -/
def parseWordsStar : Nat → Str → Str × Str
  | 0, l => ([], l)
  | fuel + 1, l =>
    let ws := l.takeWhile isPySpace
    if ws = [] then ([], l)
    else
      match parseName (l.dropWhile isPySpace) with
      | some (nm, r2) =>
        let res := parseWordsStar fuel r2
        (ws ++ nm ++ res.1, res.2)
      | none => ([], l)

/-- Pattern `(?:,\s*\d+)*`, greedy. -/
def parseMoreDigits : Nat → Str → Str × Str
  | 0, l => ([], l)
  | fuel + 1, l =>
    match l with
    | ',' :: r =>
      let ws := r.takeWhile isPySpace
      let r2 := r.dropWhile isPySpace
      let ds := r2.takeWhile isDigitA
      if ds = [] then ([], ',' :: r)
      else
        let res := parseMoreDigits fuel (r2.dropWhile isDigitA)
        (',' :: (ws ++ ds ++ res.1), res.2)
    | _ => ([], l)

/-- Pattern `(?:\s*\d+(?:,\s*\d+)*)?`, greedy; consumes nothing on failure. -/
def parseDigitsOpt (l : Str) : Str × Str :=
  let ws := l.takeWhile isPySpace
  let r := l.dropWhile isPySpace
  let ds := r.takeWhile isDigitA
  if ds = [] then ([], l)
  else
    let r2 := r.dropWhile isDigitA
    let res := parseMoreDigits (r2.length + 1) r2
    (ws ++ ds ++ res.1, res.2)

/-- Pattern `[A-Z][a-z]+(?:\s+[A-Z][a-z]+)*(?:\s*\d+(?:,\s*\d+)*)?`. -/
def parseNameGroup (l : Str) : Option (Str × Str) :=
  match parseName l with
  | none => none
  | some (nm, r) =>
    let w := parseWordsStar (r.length + 1) r
    let d := parseDigitsOpt w.2
    some (nm ++ w.1 ++ d.1, d.2)

/-- Pattern `(?:,\s*NameGroup)*`, greedy. -/
def parseMoreNames : Nat → Str → Str × Str
  | 0, l => ([], l)
  | fuel + 1, l =>
    match l with
    | ',' :: r =>
      let ws := r.takeWhile isPySpace
      match parseNameGroup (r.dropWhile isPySpace) with
      | some (g, r3) =>
        let res := parseMoreNames fuel r3
        (',' :: (ws ++ g ++ res.1), res.2)
      | none => ([], ',' :: r)
    | _ => ([], l)

/-- Model of `re.search` for the author pattern: try the pattern at each position
from the left; the pattern can only start where `[A-Z][a-z]+` matches.
Returns group(1) (= the whole match). -/
def authorSearch : Str → Option Str
  | [] => none
  | c :: rest =>
    match parseNameGroup (c :: rest) with
    | some (g, r) => some (g ++ (parseMoreNames (r.length + 1) r).1)
    | none => authorSearch rest

/-! ### Abstract (app.py lines 48–50)

`re.search(r'(?i)abstract\s*(.*?)(?=\n\s*\d+\s+|\n\s*1\s+introduction)',
           original_text, re.DOTALL | re.IGNORECASE)`

The pattern must start at an occurrence of `abstract`; with `re.DOTALL`
the lazy `(.*?)` can cross newlines, so the leftmost occurrence admits a
match whenever any occurrence does — the search is modelled from the
first occurrence only.  The greedy `\s*` first consumes the whole
whitespace run after `abstract`; only if no lookahead position lies at
or after the group start does it back off one character at a time
(`abstractTry`).  The lazy group then ends at the smallest position at
or after the group start where the lookahead matches. -/

/-- The lookahead `\n\s*\d+\s+|\n\s*1\s+introduction` tested at the head
of `l` (both alternatives are deterministic: each quantifier is followed
by a character class disjoint from it). -/
def boundaryAt (l : Str) : Bool :=
  match l with
  | '\n' :: rest =>
    let r1 := rest.dropWhile isPySpace
    (!(r1.takeWhile isDigitA) = [] &&
      match (r1.dropWhile isDigitA).head? with
      | some c => isPySpace c
      | none => false) ||
    (match r1 with
     | '1' :: r2 =>
       !(r2.takeWhile isPySpace) = [] &&
         (("introduction").data).isPrefixOf (lowerStr (r2.dropWhile isPySpace))
     | _ => false)
  | _ => false

def findBoundaryGo (text : Str) : Nat → Nat → Option Nat
  | 0, _ => none
  | n + 1, i =>
    if boundaryAt (text.drop i) then some i else findBoundaryGo text n (i + 1)

/-- Smallest position `p ≥ i` at which the lookahead matches (positions
run to the end of the text; the lookahead needs a character, so nothing
matches at or past `text.length`). -/
def findBoundary (text : Str) (i : Nat) : Option Nat :=
  findBoundaryGo text (text.length - i) i

/-- Position of the first case-insensitive occurrence of `abstract`. -/
def occAbstract (text : Str) : Option Nat := firstOcc absWord (lowerStr text)

/-- The greedy-`\s*` backtracking: with `s` characters of the whitespace
run consumed, the group is `text[start0+s, p)` for the smallest lookahead
position `p ≥ start0 + s`; if none exists, give back one character and
retry; if `s = 0` also fails, the whole search fails. -/
def abstractTry (text : Str) (start0 : Nat) : Nat → Option Str
  | 0 =>
    match findBoundary text start0 with
    | some p => some ((text.drop start0).take (p - start0))
    | none => none
  | s + 1 =>
    match findBoundary text (start0 + (s + 1)) with
    | some p => some ((text.drop (start0 + (s + 1))).take (p - (start0 + (s + 1))))
    | none => abstractTry text start0 s

/-- Value `group(1)` of the abstract regex (`none` = no match).  `8` is the
length of the literal `abstract`; the initial `s` is the length of the
whitespace run following it. -/
def abstractGroup (text : Str) : Option Str :=
  match occAbstract text with
  | none => none
  | some i => abstractTry text (i + 8) (((text.drop (i + 8)).takeWhile isPySpace).length)

/-- app.py line 49: `abstract_match.group(1).strip() if abstract_match
else "Abstract not found"`. -/
def abstractRaw (text : Str) : Str :=
  match abstractGroup text with
  | some g => pyStrip g
  | none => absNotFound

/-- Stage `.replace('\n', '<br>')`. -/
def nlEnc (l : Str) : Str := pyReplace (("\n").data) (("<br>").data) l

/-- Stage `.replace('  ', '&nbsp;&nbsp;')`. -/
def dblEnc (l : Str) : Str := pyReplace (("  ").data) (("&nbsp;&nbsp;").data) l

/-- app.py lines 50/53: `.replace('\n', '<br>').replace('  ', '&nbsp;&nbsp;')`. -/
def encode (l : Str) : Str := dblEnc (nlEnc l)

/-! ### The extractor (app.py lines 21–55) -/

/-- Function `extract_metadata(text)`; `none` models an uncaught exception. -/
def extract_metadata (text : Str) : Option (Str × Str × Str × Str) :=
  let lines := splitNl text
  match findTitle lines with
  | none => none
  | some tOpt =>
    let title := tOpt.getD unknownTitle
    match startIdxOf lines title with
    | none => none
    | some start_idx =>
      match endScan lines (min (start_idx + 15) lines.length) start_idx with
      | none => none
      | some end_idx =>
        let author_block := pyStrip (joinSp ((lines.drop start_idx).take (end_idx - start_idx)))
        let authors :=
          match authorSearch author_block with
          | some m => pyStrip (pyReplace (("\n").data) ((" ").data) m)
          | none => unknownAuthors
        some (title, authors, encode (abstractRaw text), encode text)

/-! Total projections of the pipeline (the `getD` defaults are proven
never to be used, `em_some` below). -/

def linesOf (text : Str) : List Str := splitNl text

def titleOf (text : Str) : Str :=
  ((findTitle (linesOf text)).getD none).getD unknownTitle

def startOf (text : Str) : Nat :=
  (startIdxOf (linesOf text) (titleOf text)).getD 0

def endOf (text : Str) : Nat :=
  (endScan (linesOf text) (min (startOf text + 15) (linesOf text).length)
    (startOf text)).getD (linesOf text).length

def blockOf (text : Str) : Str :=
  pyStrip (joinSp (((linesOf text).drop (startOf text)).take (endOf text - startOf text)))

def authorsOf (text : Str) : Str :=
  match authorSearch (blockOf text) with
  | some m => pyStrip (pyReplace (("\n").data) ((" ").data) m)
  | none => unknownAuthors

def abstractOf (text : Str) : Str := encode (abstractRaw text)

def fullOf (text : Str) : Str := encode text

/-! ### Spec-side definitions

The following definitions are *not* translated from the source; each
follows the words of a spec claim (or of its amended form) and is
compared against the embedding above. -/

/-- Claim C2 as stated: the condition on a line uses the first character
*after trimming*. -/
def titleCondSpecC2 (l : Str) : Bool :=
  !(pyStrip l).isEmpty &&
    (match (pyStrip l).head? with
     | some c => isUpperA c || decide (10 < (pyStrip l).length)
     | none => false)

/-- Claim C2 as stated: trimmed text of the first qualifying line, else
the placeholder. -/
def titleSpecC2 (text : Str) : Str :=
  match (splitNl text).find? titleCondSpecC2 with
  | some l => pyStrip l
  | none => unknownTitle

/-- Claim C2 amended: the uppercase test reads the first character of
the *raw* (untrimmed) line. -/
def titleCondAmendedC2 (l : Str) : Bool :=
  !(pyStrip l).isEmpty &&
    (match l.head? with
     | some c => isUpperA c || decide (10 < (pyStrip l).length)
     | none => false)

/-- Claim C2 amended: trimmed text of the first line qualifying under
the raw-first-character condition, else the placeholder. -/
def titleSpecAmendedC2 (text : Str) : Str :=
  match (splitNl text).find? titleCondAmendedC2 with
  | some l => pyStrip l
  | none => unknownTitle

/-- Claim C6 as stated: the scan starts after the first line whose
*trimmed* text equals the chosen title, or at line 0. -/
def startSpecC6 (lines : List Str) (title : Str) : Nat :=
  match lines.findIdx? (fun l => pyStrip l == title) with
  | some j => j + 1
  | none => 0

/-- Claim C6 amended: the scan starts after the first line whose *raw*
text equals the chosen title, or at line 0. -/
def startSpecAmendedC6 (lines : List Str) (title : Str) : Nat :=
  match lines.findIdx? (fun l => l == title) with
  | some j => j + 1
  | none => 0

/-- Claim C6 (second half, unchanged by the amendment): the open upper
bound of the author block is the first of at most 15 subsequent lines
whose trimmed text contains a keyword, or the end of document. -/
def endSpecC6 (lines : List Str) (start : Nat) : Nat :=
  match (List.range' start (min 15 (lines.length - start))).find?
      (fun j => hasKeyword (pyStrip (lines.getD j []))) with
  | some j => j
  | none => lines.length

/-- Claim C3 as stated: the capture starts immediately after the
`abstract` marker and runs to the earliest boundary at or after it. -/
def abstractSpecC3 (text : Str) : Str :=
  match occAbstract text with
  | none => absNotFound
  | some i =>
    match findBoundary text (i + 8) with
    | some p => encode (pyStrip ((text.drop (i + 8)).take (p - (i + 8))))
    | none => absNotFound

/-- Claim C3 amended: the capture starts after `abstract` plus the
largest prefix `s` of the following whitespace run such that a boundary
still lies at or after the capture start, and runs to the earliest such
boundary; if no boundary follows the marker at all, the placeholder is
returned. -/
def abstractSpecAmendedC3 (text : Str) : Str :=
  match occAbstract text with
  | none => absNotFound
  | some i =>
    let start0 := i + 8
    let w := ((text.drop start0).takeWhile isPySpace).length
    match (List.range (w + 1)).reverse.find?
        (fun s => (findBoundary text (start0 + s)).isSome) with
    | none => absNotFound
    | some s =>
      match findBoundary text (start0 + s) with
      | none => absNotFound
      | some p => encode (pyStrip ((text.drop (start0 + s)).take (p - (start0 + s))))

/-! ## Lemmas -/

theorem dropWhile_head_not (p : Char → Bool) :
    ∀ (l : Str) (c : Char), (l.dropWhile p).head? = some c → p c = false := by
  intro l
  induction l with
  | nil => intro c h; simp [List.dropWhile] at h
  | cons a rest ih =>
    intro c h
    rw [List.dropWhile_cons] at h
    by_cases hp : p a
    · rw [if_pos hp] at h
      exact ih c h
    · rw [if_neg hp] at h
      simp only [List.head?_cons, Option.some.injEq] at h
      rw [← h]
      exact Bool.eq_false_iff.mpr hp

theorem dropWhile_id_of_head (p : Char → Bool) (l : Str)
    (h : ∀ c, l.head? = some c → p c = false) : l.dropWhile p = l := by
  cases l with
  | nil => rfl
  | cons a rest =>
    rw [List.dropWhile_cons, if_neg]
    simp [h a rfl]

theorem dropWhile_getLast? (p : Char → Bool) :
    ∀ (l : Str), l.dropWhile p ≠ [] → (l.dropWhile p).getLast? = l.getLast? := by
  intro l
  induction l with
  | nil => intro h; simp [List.dropWhile] at h
  | cons a rest ih =>
    intro h
    rw [List.dropWhile_cons] at h ⊢
    by_cases hp : p a
    · rw [if_pos hp] at h ⊢
      have hr : rest ≠ [] := by
        intro he
        rw [he] at h
        simp [List.dropWhile] at h
      rw [ih h]
      cases rest with
      | nil => exact absurd rfl hr
      | cons b bs => rw [List.getLast?_cons_cons]
    · rw [if_neg hp]

theorem pyStrip_idem (l : Str) : pyStrip (pyStrip l) = pyStrip l := by
  unfold pyStrip
  have h1 : ((l.dropWhile isPySpace).reverse.dropWhile isPySpace).reverse.dropWhile isPySpace
      = ((l.dropWhile isPySpace).reverse.dropWhile isPySpace).reverse := by
    apply dropWhile_id_of_head
    intro c hc
    rw [List.head?_reverse] at hc
    have hbne : (l.dropWhile isPySpace).reverse.dropWhile isPySpace ≠ [] := by
      intro he
      rw [he] at hc
      simp at hc
    rw [dropWhile_getLast? isPySpace _ hbne, List.getLast?_reverse] at hc
    exact dropWhile_head_not isPySpace l c hc
  rw [h1, List.reverse_reverse]
  have h2 : ((l.dropWhile isPySpace).reverse.dropWhile isPySpace).dropWhile isPySpace
      = (l.dropWhile isPySpace).reverse.dropWhile isPySpace := by
    apply dropWhile_id_of_head
    intro c hc
    exact dropWhile_head_not isPySpace (l.dropWhile isPySpace).reverse c hc
  rw [h2]

theorem pyStrip_nil : pyStrip [] = [] := rfl

theorem findTitle_ne_none : ∀ (lines : List Str), findTitle lines ≠ none := by
  intro lines
  induction lines with
  | nil => simp [findTitle]
  | cons l ls ih =>
    simp only [findTitle]
    cases hv : titleLineVal l with
    | none =>
      exfalso
      unfold titleLineVal at hv
      by_cases hs : pyStrip l = []
      · rw [if_pos hs] at hv; exact Option.noConfusion hv
      · rw [if_neg hs] at hv
        cases l with
        | nil => exact hs pyStrip_nil
        | cons c cs => exact Option.noConfusion hv
    | some b => cases b <;> simp [ih]

theorem findTitle_strip : ∀ (lines : List Str) (t : Str),
    findTitle lines = some (some t) → pyStrip t = t := by
  intro lines
  induction lines with
  | nil =>
    intro t h
    simp [findTitle] at h
  | cons l ls ih =>
    intro t h
    simp only [findTitle] at h
    cases hv : titleLineVal l with
    | none => rw [hv] at h; exact Option.noConfusion h
    | some b =>
      rw [hv] at h
      cases b with
      | true =>
        simp only [Option.some.injEq] at h
        rw [← h]
        exact pyStrip_idem l
      | false => exact ih t h

theorem findTitle_eq_find? : ∀ (lines : List Str),
    findTitle lines = some ((lines.find? titleCondAmendedC2).map pyStrip) := by
  intro lines
  induction lines with
  | nil => simp [findTitle]
  | cons l ls ih =>
    simp only [findTitle]
    by_cases hs : pyStrip l = []
    · have hv : titleLineVal l = some false := by
        unfold titleLineVal; rw [if_pos hs]
      have hc : titleCondAmendedC2 l = false := by
        unfold titleCondAmendedC2
        rw [hs]
        simp
      rw [hv, List.find?_cons_of_neg _ (by simp [hc]), ih]
    · cases l with
      | nil => exact absurd pyStrip_nil hs
      | cons c cs =>
        have hv : titleLineVal (c :: cs) =
            some (isUpperA c || decide (10 < (pyStrip (c :: cs)).length)) := by
          unfold titleLineVal
          rw [if_neg hs]
        have hc : titleCondAmendedC2 (c :: cs) =
            (isUpperA c || decide (10 < (pyStrip (c :: cs)).length)) := by
          unfold titleCondAmendedC2
          simp only [List.head?_cons]
          have : (pyStrip (c :: cs)).isEmpty = false := by
            rw [List.isEmpty_eq_false]
            exact hs
          rw [this]
          simp
        rw [hv]
        cases hb : (isUpperA c || decide (10 < (pyStrip (c :: cs)).length)) with
        | true =>
          rw [List.find?_cons_of_pos _ (by rw [hc, hb])]
          simp
        | false =>
          rw [List.find?_cons_of_neg _ (by rw [hc, hb]; simp), ih]

theorem listIndex_isSome_iff (x : Str) :
    ∀ (ls : List Str), (listIndex x ls).isSome ↔ x ∈ ls := by
  intro ls
  induction ls with
  | nil => simp [listIndex]
  | cons l ls ih =>
    simp only [listIndex]
    by_cases h : l = x
    · rw [if_pos h, h]
      simp
    · rw [if_neg h]
      constructor
      · intro hs
        have hsome : (listIndex x ls).isSome := by
          cases hc : listIndex x ls with
          | none => rw [hc] at hs; simp at hs
          | some j => rfl
        exact List.mem_cons_of_mem _ (ih.mp hsome)
      · intro hm
        rcases List.mem_cons.mp hm with h1 | h2
        · exact absurd h1.symm h
        · obtain ⟨j, hj⟩ := Option.isSome_iff_exists.mp (ih.mpr h2)
          rw [hj]
          rfl

theorem listIndex_eq_findIdx? (x : Str) :
    ∀ (ls : List Str), listIndex x ls = ls.findIdx? (fun l => l == x) := by
  intro ls
  induction ls with
  | nil => simp [listIndex]
  | cons l ls ih =>
    simp only [listIndex, List.findIdx?_cons]
    by_cases h : l = x
    · rw [if_pos h, if_pos (by simp [h])]
    · rw [if_neg h, if_neg (by simp [h]), List.findIdx?_succ, ih]

theorem startIdxOf_eq (lines : List Str) (title : Str) (h : pyStrip title = title) :
    startIdxOf lines title = some (startSpecAmendedC6 lines title) := by
  unfold startIdxOf startSpecAmendedC6
  rw [h, listIndex_eq_findIdx?]
  by_cases hm : title ∈ lines
  · have hsome : (lines.findIdx? (fun l => l == title)).isSome := by
      rw [← listIndex_eq_findIdx?]
      exact (listIndex_isSome_iff title lines).mpr hm
    obtain ⟨j, hj⟩ := Option.isSome_iff_exists.mp hsome
    rw [if_pos hm, hj]
    rfl
  · have hnone : lines.findIdx? (fun l => l == title) = none := by
      rw [← listIndex_eq_findIdx?]
      cases hc : listIndex title lines with
      | none => rfl
      | some j =>
        exact absurd ((listIndex_isSome_iff title lines).mp (by rw [hc]; rfl)) hm
    rw [if_neg hm, hnone]

theorem endScanGo_eq (lines : List Str) :
    ∀ (n i : Nat), (0 < n → i + n ≤ lines.length) →
      endScanGo lines n i =
        some (match (List.range' i n).find?
                (fun j => hasKeyword (pyStrip (lines.getD j []))) with
              | some j => j
              | none => lines.length) := by
  intro n
  induction n with
  | zero =>
    intro i _
    simp [endScanGo, List.range']
  | succ n ih =>
    intro i h
    have hi : i < lines.length := by
      have := h (by omega)
      omega
    simp only [endScanGo]
    rw [List.range'_succ]
    split
    · rename_i hg
      have := List.getElem?_eq_none_iff.mp hg
      omega
    · rename_i l hg
      have hgd : lines.getD i [] = l := by
        simp [List.getD_eq_getElem?_getD, hg]
      by_cases hk : hasKeyword (pyStrip l)
      · rw [if_pos hk, List.find?_cons_of_pos _ (by rw [hgd]; exact hk)]
      · rw [if_neg hk, List.find?_cons_of_neg _ (by rw [hgd]; simp [hk]),
          ih (i + 1) (by intro _; have := h (by omega); omega)]

theorem endScan_eq (lines : List Str) (stop i : Nat) (h : stop ≤ lines.length) :
    endScan lines stop i =
      some (match (List.range' i (stop - i)).find?
              (fun j => hasKeyword (pyStrip (lines.getD j []))) with
            | some j => j
            | none => lines.length) := by
  unfold endScan
  exact endScanGo_eq lines (stop - i) i (by omega)

theorem endScanGo_bound (lines : List Str) :
    ∀ (n i e : Nat), endScanGo lines n i = some e → e < i + n ∨ e = lines.length := by
  intro n
  induction n with
  | zero =>
    intro i e he
    simp only [endScanGo, Option.some.injEq] at he
    exact Or.inr he.symm
  | succ n ih =>
    intro i e he
    simp only [endScanGo] at he
    split at he
    · exact Option.noConfusion he
    · split at he
      · simp only [Option.some.injEq] at he
        exact Or.inl (by omega)
      · rcases ih (i + 1) e he with h1 | h2
        · exact Or.inl (by omega)
        · exact Or.inr h2

theorem findBoundaryGo_none (text : Str) :
    ∀ (n j : Nat), (∀ p, j ≤ p → p < j + n → boundaryAt (text.drop p) = false) →
      findBoundaryGo text n j = none := by
  intro n
  induction n with
  | zero => intro j _; rfl
  | succ n ih =>
    intro j h
    simp only [findBoundaryGo]
    rw [h j le_rfl (by omega)]
    simp only [Bool.false_eq_true, if_false]
    exact ih (j + 1) (fun p hp hl => h p (by omega) (by omega))

theorem findBoundary_none (text : Str) (j : Nat)
    (h : ∀ p, j ≤ p → p < text.length → boundaryAt (text.drop p) = false) :
    findBoundary text j = none := by
  unfold findBoundary
  exact findBoundaryGo_none text (text.length - j) j
    (fun p hp hl => h p hp (by omega))

theorem abstractTry_eq (text : Str) (start0 : Nat) :
    ∀ s, abstractTry text start0 s =
      ((List.range (s + 1)).reverse.find?
          (fun t => (findBoundary text (start0 + t)).isSome)).bind
        (fun t => (findBoundary text (start0 + t)).map
          (fun p => (text.drop (start0 + t)).take (p - (start0 + t)))) := by
  intro s
  induction s with
  | zero =>
    simp only [abstractTry]
    have hr1 : (List.range 1).reverse = [0] := rfl
    rw [hr1]
    cases hfb : findBoundary text start0 with
    | none => simp [hfb]
    | some p => simp [hfb]
  | succ n ih =>
    simp only [abstractTry]
    rw [List.range_succ, List.reverse_append]
    have hr1 : ([n + 1] : List Nat).reverse = [n + 1] := rfl
    rw [hr1, List.singleton_append]
    cases hfb : findBoundary text (start0 + (n + 1)) with
    | none =>
      rw [List.find?_cons_of_neg _ (by simp [hfb]), ih]
    | some p =>
      rw [List.find?_cons_of_pos _ (by simp [hfb])]
      simp [hfb]

/-- The extractor never hits an error path: the `line[0]` subscript is
guarded by truthiness of the stripped line, the `list.index` lookup by
the membership test (titles are already stripped), and the loop
subscript by the range bound. -/
theorem em_some (text : Str) :
    extract_metadata text
      = some (titleOf text, authorsOf text, abstractOf text, fullOf text) := by
  obtain ⟨tOpt, ht⟩ := Option.ne_none_iff_exists'.mp (findTitle_ne_none (splitNl text))
  have hTitle : titleOf text = tOpt.getD unknownTitle := by
    unfold titleOf linesOf
    rw [ht]
    rfl
  have hstrip : pyStrip (tOpt.getD unknownTitle) = tOpt.getD unknownTitle := by
    cases tOpt with
    | none => decide
    | some t => exact findTitle_strip _ t ht
  have hSI : ∃ st, startIdxOf (splitNl text) (tOpt.getD unknownTitle) = some st := by
    unfold startIdxOf
    by_cases hm : tOpt.getD unknownTitle ∈ splitNl text
    · rw [if_pos hm, hstrip]
      obtain ⟨j, hj⟩ := Option.isSome_iff_exists.mp ((listIndex_isSome_iff _ _).mpr hm)
      exact ⟨j + 1, by rw [hj]; rfl⟩
    · exact ⟨0, if_neg hm⟩
  obtain ⟨st, hst⟩ := hSI
  have hstart : startOf text = st := by
    unfold startOf linesOf
    rw [hTitle, hst]
    rfl
  obtain ⟨e, he⟩ : ∃ e, endScan (splitNl text)
      (min (st + 15) (splitNl text).length) st = some e :=
    ⟨_, endScan_eq _ _ _ (min_le_right _ _)⟩
  have hend : endOf text = e := by
    unfold endOf linesOf
    rw [hstart, he]
    rfl
  have hAuth : authorsOf text =
      match authorSearch (pyStrip (joinSp (((splitNl text).drop st).take (e - st)))) with
      | some m => pyStrip (pyReplace (("\n").data) ((" ").data) m)
      | none => unknownAuthors := by
    unfold authorsOf blockOf linesOf
    rw [hstart, hend]
  simp only [extract_metadata, ht, hst, he]
  rw [hTitle, hAuth]
  rfl

theorem pyReplaceGo_fuel (pat rep : Str) :
    ∀ (n : Nat) (s : Str), s.length ≤ n →
      pyReplaceGo pat rep n s = pyReplaceGo pat rep s.length s := by
  intro n
  induction n using Nat.strong_induction_on with
  | _ n ih =>
    intro s h
    cases n with
    | zero =>
      have hs : s = [] := List.eq_nil_of_length_eq_zero (by omega)
      rw [hs]
      rfl
    | succ n =>
      cases s with
      | nil => rfl
      | cons c rest =>
        have hrest : rest.length ≤ n := by
          simp only [List.length_cons] at h
          omega
        simp only [List.length_cons, pyReplaceGo]
        by_cases hc : pat ≠ [] ∧ pat.isPrefixOf (c :: rest)
        · rw [if_pos hc, if_pos hc]
          have hd : (List.drop (pat.length - 1) rest).length ≤ rest.length := by
            rw [List.length_drop]
            omega
          rw [ih n (by omega) _ (le_trans hd hrest),
            ih rest.length (by omega) _ hd]
        · rw [if_neg hc, if_neg hc, ih n (by omega) rest hrest]

theorem pyReplace_cons (pat rep : Str) (c : Char) (rest : Str) :
    pyReplace pat rep (c :: rest) =
      if pat ≠ [] ∧ pat.isPrefixOf (c :: rest) then
        rep ++ pyReplace pat rep (List.drop (pat.length - 1) rest)
      else c :: pyReplace pat rep rest := by
  unfold pyReplace
  simp only [List.length_cons, pyReplaceGo]
  by_cases hc : pat ≠ [] ∧ pat.isPrefixOf (c :: rest)
  · rw [if_pos hc, if_pos hc,
      pyReplaceGo_fuel pat rep rest.length _ (by rw [List.length_drop]; omega)]
  · rw [if_neg hc, if_neg hc]

theorem dblEnc_cons_nospace (c : Char) (t : Str) (hc : c ≠ ' ') :
    dblEnc (c :: t) = c :: dblEnc t := by
  unfold dblEnc
  rw [pyReplace_cons, if_neg]
  rintro ⟨-, hpre⟩
  rw [show ("  ").data = ([' ', ' '] : Str) from rfl] at hpre
  simp only [List.isPrefixOf, Bool.and_eq_true, beq_iff_eq] at hpre
  exact hc hpre.1.symm

theorem dblEnc_sp2 (t : Str) :
    dblEnc (' ' :: ' ' :: t) = ("&nbsp;&nbsp;").data ++ dblEnc t := by
  unfold dblEnc
  rw [pyReplace_cons, if_pos]
  · rw [show List.drop (((("  ").data)).length - 1) (' ' :: t) = t from rfl]
  · constructor
    · decide
    · rw [show ("  ").data = ([' ', ' '] : Str) from rfl]
      simp [List.isPrefixOf]

theorem dblEnc_nospace (b : Str) (hb : ∀ c ∈ b, c ≠ ' ') : dblEnc b = b := by
  induction b with
  | nil => rfl
  | cons c t ih =>
    rw [dblEnc_cons_nospace c t (hb c (List.mem_cons_self c t)),
      ih (fun x hx => hb x (List.mem_cons_of_mem c hx))]

theorem dblEnc_append_nospace (a t : Str) (ha : ∀ c ∈ a, c ≠ ' ') :
    dblEnc (a ++ t) = a ++ dblEnc t := by
  induction a with
  | nil => simp
  | cons c as ih =>
    rw [List.cons_append,
      dblEnc_cons_nospace c (as ++ t) (ha c (List.mem_cons_self c as)),
      ih (fun x hx => ha x (List.mem_cons_of_mem c hx)), List.cons_append]

theorem dblEnc_one_space (b : Str) (hb : ∀ c ∈ b, c ≠ ' ') :
    dblEnc (' ' :: b) = ' ' :: b := by
  have hrest := dblEnc_nospace b hb
  unfold dblEnc at hrest ⊢
  rw [pyReplace_cons, if_neg, hrest]
  rintro ⟨-, hpre⟩
  rw [show ("  ").data = ([' ', ' '] : Str) from rfl] at hpre
  cases b with
  | nil => simp [List.isPrefixOf] at hpre
  | cons d bs =>
    simp only [List.isPrefixOf, Bool.and_eq_true, beq_iff_eq] at hpre
    exact hb d (List.mem_cons_self d bs) hpre.2.1.symm

theorem abstractTry_none (text : Str) (start0 : Nat)
    (h : ∀ s', findBoundary text (start0 + s') = none) :
    ∀ s, abstractTry text start0 s = none := by
  intro s
  induction s with
  | zero =>
    simp only [abstractTry]
    have h0 := h 0
    rw [Nat.add_zero] at h0
    rw [h0]
  | succ n ih =>
    simp only [abstractTry]
    rw [h (n + 1)]
    exact ih

/-! ## Claims -/

/-- C1: for every input string, `extract_metadata` terminates normally
and returns a 4-tuple of strings; no input makes it raise (in the
embedding: the result is always `some`, never the error value `none`). -/
theorem c1_extract_total (text : Str) :
    ∃ r : Str × Str × Str × Str, extract_metadata text = some r :=
  ⟨_, em_some text⟩

/-- C2, counterexample: on the input `" Abc"` the code returns
`"Unknown Title"` (the raw line starts with a space, `' '.isupper()` is
false, and the trimmed length is not over 10), while the claim — which
tests the first character *after trimming* — demands `"Abc"`. -/
theorem c2_counterexample :
    (extract_metadata ((" Abc").data)).map (fun r => r.1)
        = some (("Unknown Title").data) ∧
    titleSpecC2 ((" Abc").data) = ("Abc").data ∧
    (extract_metadata ((" Abc").data)).map (fun r => r.1)
        ≠ some (titleSpecC2 ((" Abc").data)) := by
  decide

/-- C2, amended: the returned title equals the trimmed text of the first
line that is non-empty after trimming and whose first character *before*
trimming is uppercase OR whose trimmed length is greater than 10; if no
line qualifies, the title is `"Unknown Title"`. -/
theorem c2_title_first_raw_upper (text : Str) :
    (extract_metadata text).map (fun r => r.1) = some (titleSpecAmendedC2 text) := by
  rw [em_some]
  simp only [Option.map_some', Option.some.injEq]
  unfold titleOf titleSpecAmendedC2 linesOf
  rw [findTitle_eq_find?]
  cases h : (splitNl text).find? titleCondAmendedC2 with
  | none => simp [h]
  | some l => simp [h]

/-- C3, counterexample: on `"Abstract\n2 x\n3 y"` the code captures
`"2 x"` — the greedy `\s*` consumes the newline, so the capture starts
past the first boundary and ends at the second — while the claim (capture
from right after `abstract` to the earliest boundary) demands `""`. -/
theorem c3_counterexample :
    (extract_metadata (("Abstract\n2 x\n3 y").data)).map (fun r => r.2.2.1)
        = some (("2 x").data) ∧
    abstractSpecC3 (("Abstract\n2 x\n3 y").data) = ("").data ∧
    (extract_metadata (("Abstract\n2 x\n3 y").data)).map (fun r => r.2.2.1)
        ≠ some (abstractSpecC3 (("Abstract\n2 x\n3 y").data)) := by
  decide

/-- C3, amended: the capture starts after the first (case-insensitive)
occurrence of `abstract` plus the largest prefix of the following
whitespace run that still leaves some boundary at or after the capture
start, and extends to the earliest boundary at or after that start; the
captured span is trimmed and render-encoded.  If there is no `abstract`
marker, or no boundary after it, the abstract is `"Abstract not found"`. -/
theorem c3_abstract_capture (text : Str) :
    (extract_metadata text).map (fun r => r.2.2.1)
      = some (abstractSpecAmendedC3 text) := by
  rw [em_some]
  simp only [Option.map_some', Option.some.injEq]
  unfold abstractOf abstractRaw abstractGroup abstractSpecAmendedC3
  cases hocc : occAbstract text with
  | none => exact (by decide : encode absNotFound = absNotFound)
  | some i =>
    simp only
    rw [abstractTry_eq]
    cases hfind : (List.range (((text.drop (i + 8)).takeWhile isPySpace).length + 1)).reverse.find?
        (fun s => (findBoundary text (i + 8 + s)).isSome) with
    | none =>
      simp only [hfind, Option.bind_none]
      exact (by decide : encode absNotFound = absNotFound)
    | some s =>
      have hsome : (findBoundary text (i + 8 + s)).isSome := by
        simpa using List.find?_some hfind
      obtain ⟨p, hp⟩ := Option.isSome_iff_exists.mp hsome
      simp [hfind, hp]

/-- C4: when the text contains an `abstract` marker but no boundary
pattern (`\n\s*\d+\s+` or `\n\s*1\s+introduction`) matches anywhere at
or after it, the returned abstract is still the placeholder
`"Abstract not found"`. -/
theorem c4_marker_without_boundary (text : Str) (i : Nat)
    (hocc : occAbstract text = some i)
    (hnb : ∀ p, p < text.length → i ≤ p → boundaryAt (text.drop p) = false) :
    (extract_metadata text).map (fun r => r.2.2.1) = some absNotFound := by
  rw [em_some]
  simp only [Option.map_some', Option.some.injEq]
  have hgroup : abstractGroup text = none := by
    unfold abstractGroup
    rw [hocc]
    exact abstractTry_none text (i + 8)
      (fun s' => findBoundary_none text (i + 8 + s')
        (fun p hp hl => hnb p hl (by omega))) _
  have hraw : abstractRaw text = absNotFound := by
    unfold abstractRaw
    rw [hgroup]
  unfold abstractOf
  rw [hraw]
  decide

/-- C4, witness: `"abstract xyz"` has the marker at position 0 and no
boundary anywhere, and the abstract returned is the placeholder. -/
theorem c4_witness :
    occAbstract (("abstract xyz").data) = some 0 ∧
    (∀ p, p < (("abstract xyz").data).length → 0 ≤ p →
        boundaryAt ((("abstract xyz").data).drop p) = false) ∧
    (extract_metadata (("abstract xyz").data)).map (fun r => r.2.2.1)
        = some absNotFound :=
  ⟨by decide, by decide,
    c4_marker_without_boundary (("abstract xyz").data) 0 (by decide) (by decide)⟩

/-- C5, counterexample: with a title line followed by 16 keyword-free
lines and then `"John Smith"` on line 17, no keyword is found in the
15-line window, the author block extends to the end of the document, and
the returned authors `"John Smith"` come from a line more than 15 lines
after the title (it occurs in no line of index at most 16). -/
theorem c5_counterexample :
    (extract_metadata (("My Great Paper Title\nx\nx\nx\nx\nx\nx\nx\nx\nx\nx\nx\nx\nx\nx\nx\nx\nJohn Smith").data)).map
        (fun r => r.2.1) = some (("John Smith").data) ∧
    ((splitNl (("My Great Paper Title\nx\nx\nx\nx\nx\nx\nx\nx\nx\nx\nx\nx\nx\nx\nx\nx\nJohn Smith").data)).take 17).all
        (fun l => !containsSub (("John Smith").data) l) = true ∧
    containsSub (("John Smith").data)
        ((splitNl (("My Great Paper Title\nx\nx\nx\nx\nx\nx\nx\nx\nx\nx\nx\nx\nx\nx\nx\nx\nJohn Smith").data)).getD 17 [])
        = true := by
  decide

/-- C5, amended: the 15-line window caps only the keyword scan that
bounds the author block: the block's open upper bound is either within
the window (at most `start + 15`) or the end of the document; in the
latter case author text arbitrarily far after the title can be captured. -/
theorem c5_window_caps_scan (lines : List Str) (start e : Nat)
    (he : endScan lines (min (start + 15) lines.length) start = some e) :
    e ≤ start + 15 ∨ e = lines.length := by
  unfold endScan at he
  rcases endScanGo_bound lines _ _ _ he with h1 | h2
  · left
    omega
  · right
    exact h2

/-- C5, witness: a keyword on line 1 ends the scan inside the window. -/
theorem c5_witness :
    endScan (splitNl (("T\nAbstract").data))
        (min (1 + 15) (splitNl (("T\nAbstract").data)).length) 1 = some 1 ∧
    (1 ≤ 1 + 15 ∨ 1 = (splitNl (("T\nAbstract").data)).length) :=
  ⟨by decide, c5_window_caps_scan (splitNl (("T\nAbstract").data)) 1 1 (by decide)⟩

/-- C6, counterexample: on `"  My Great Paper Title\nJane Doe\nAbstract"`
the chosen title is the trimmed `"My Great Paper Title"`; the raw first
line is not equal to it, so the code starts the author scan at line 0
(and the author regex then eats the title), while the claim's
trimmed-equality lookup demands starting at line 1. -/
theorem c6_counterexample :
    (extract_metadata (("  My Great Paper Title\nJane Doe\nAbstract").data)).map (fun r => r.1)
        = some (("My Great Paper Title").data) ∧
    startIdxOf (splitNl (("  My Great Paper Title\nJane Doe\nAbstract").data))
        (("My Great Paper Title").data) = some 0 ∧
    startSpecC6 (splitNl (("  My Great Paper Title\nJane Doe\nAbstract").data))
        (("My Great Paper Title").data) = 1 ∧
    (extract_metadata (("  My Great Paper Title\nJane Doe\nAbstract").data)).map (fun r => r.2.1)
        = some (("My Great Paper Title Jane Doe").data) := by
  decide

/-- C6, amended: (for any stripped title, as the chosen title always is)
the author scan starts at the line immediately after the first line
whose *raw* text equals the chosen title, or at line 0 if no such line
exists; from there, the first of at most 15 subsequent lines whose
trimmed text case-insensitively contains `"abstract"`, `"date"`,
`"correspondence"`, or `"affiliation"` becomes the open upper bound of
the author block, or end-of-document if none of those lines matches. -/
theorem c6_author_scan_bounds (lines : List Str) (title : Str) (start : Nat)
    (h : pyStrip title = title) :
    startIdxOf lines title = some (startSpecAmendedC6 lines title) ∧
    endScan lines (min (start + 15) lines.length) start
      = some (endSpecC6 lines start) := by
  constructor
  · exact startIdxOf_eq lines title h
  · rw [endScan_eq lines _ start (min_le_right _ _)]
    unfold endSpecC6
    have hmin : min (start + 15) lines.length - start = min 15 (lines.length - start) := by
      omega
    rw [hmin]

/-- C6, witness: applying the amended statement to a concrete document. -/
theorem c6_witness :
    pyStrip (("My Paper").data) = ("My Paper").data ∧
    (startIdxOf (splitNl (("My Paper\nJohn Doe\nAbstract\nBody").data)) (("My Paper").data)
        = some (startSpecAmendedC6 (splitNl (("My Paper\nJohn Doe\nAbstract\nBody").data))
            (("My Paper").data)) ∧
     endScan (splitNl (("My Paper\nJohn Doe\nAbstract\nBody").data))
        (min (1 + 15) (splitNl (("My Paper\nJohn Doe\nAbstract\nBody").data)).length) 1
        = some (endSpecC6 (splitNl (("My Paper\nJohn Doe\nAbstract\nBody").data)) 1)) :=
  ⟨by decide,
    c6_author_scan_bounds (splitNl (("My Paper\nJohn Doe\nAbstract\nBody").data))
      (("My Paper").data) 1 (by decide)⟩

/-- C7: the double-space render-encoding (the `.replace('  ', '&nbsp;&nbsp;')`
applied to both the abstract and the full text) is left-to-right
non-overlapping literal substitution: between space-free contexts, a run
of exactly 2 spaces becomes one marker, a run of exactly 4 spaces two
markers, and a run of exactly 3 spaces one marker plus a literal space;
and the full-text output is exactly this encoding of the newline-encoded
input. -/
theorem c7_double_space_encoding (a b : Str)
    (ha : ∀ c ∈ a, c ≠ ' ') (hb : ∀ c ∈ b, c ≠ ' ') :
    dblEnc (a ++ [' ', ' '] ++ b) = a ++ ("&nbsp;&nbsp;").data ++ b ∧
    dblEnc (a ++ [' ', ' ', ' ', ' '] ++ b)
      = a ++ ("&nbsp;&nbsp;").data ++ ("&nbsp;&nbsp;").data ++ b ∧
    dblEnc (a ++ [' ', ' ', ' '] ++ b)
      = a ++ ("&nbsp;&nbsp;").data ++ (' ' :: b) ∧
    ∀ t, (extract_metadata t).map (fun r => r.2.2.2) = some (dblEnc (nlEnc t)) := by
  refine ⟨?_, ?_, ?_, ?_⟩
  · rw [List.append_assoc, dblEnc_append_nospace a _ ha,
      show ([' ', ' '] : Str) ++ b = ' ' :: ' ' :: b from rfl,
      dblEnc_sp2, dblEnc_nospace b hb, List.append_assoc]
  · rw [List.append_assoc, dblEnc_append_nospace a _ ha,
      show ([' ', ' ', ' ', ' '] : Str) ++ b = ' ' :: ' ' :: (' ' :: ' ' :: b) from rfl,
      dblEnc_sp2, dblEnc_sp2, dblEnc_nospace b hb]
    simp [List.append_assoc]
  · rw [List.append_assoc, dblEnc_append_nospace a _ ha,
      show ([' ', ' ', ' '] : Str) ++ b = ' ' :: ' ' :: (' ' :: b) from rfl,
      dblEnc_sp2, dblEnc_one_space b hb, List.append_assoc]
  · intro t
    rw [em_some]
    rfl

/-- C7, witness: the three space-run shapes at a concrete instance. -/
theorem c7_witness :
    (∀ c ∈ (("ab").data), c ≠ ' ') ∧
    dblEnc ((("ab").data) ++ [' ', ' '] ++ (("cd").data))
      = (("ab").data) ++ ("&nbsp;&nbsp;").data ++ (("cd").data) :=
  ⟨by decide,
    (c7_double_space_encoding (("ab").data) (("cd").data) (by decide) (by decide)).1⟩

/-- C8: on the empty string the extractor returns the three placeholders
and an empty full text. -/
theorem c8_empty_input :
    extract_metadata (("").data)
      = some ((("Unknown Title").data), (("Unknown Authors").data),
          (("Abstract not found").data), (("").data)) := by
  decide

/-- C9: on the sample arXiv-style input the title is `"My Great Paper"`,
the authors contain `"Jane Doe1, John Smith2"`, and the encoded abstract
contains `"We study X."` and no raw newline. -/
theorem c9_sample_paper :
    ∃ (a ab ft : Str),
      extract_metadata (("My Great Paper\nJane Doe1, John Smith2\nAbstract\nWe study X.\n1 Introduction\n...").data)
        = some ((("My Great Paper").data), a, ab, ft) ∧
      containsSub (("Jane Doe1, John Smith2").data) a = true ∧
      containsSub (("We study X.").data) ab = true ∧
      '\n' ∉ ab := by
  refine ⟨(("Jane Doe1, John Smith2").data), (("We study X.").data),
    encode (("My Great Paper\nJane Doe1, John Smith2\nAbstract\nWe study X.\n1 Introduction\n...").data),
    by decide, by decide, by decide, by decide⟩

/-- C10: the extractor is deterministic and side-effect-free — its
result depends only on the input string (in the embedding it is a pure
function, mirroring that the Python reads and writes no external state). -/
theorem c10_deterministic (s t : Str) (h : s = t) :
    extract_metadata s = extract_metadata t := by
  rw [h]

/-- C10, witness. -/
theorem c10_witness :
    (("a").data = ("a").data) ∧
    extract_metadata (("a").data) = extract_metadata (("a").data) :=
  ⟨rfl, c10_deterministic (("a").data) (("a").data) rfl⟩

end ArxivExtract
